import Mathlib

/-!
Shallow embedding of the `seek_bufread` crate (src/lib.rs): a buffered reader
`BufReader<R>` over a seekable byte source, with in-buffer seek support.

Modelling conventions:
* Rust `usize`/`u64` values are modelled as `Nat`.  The two subtractions in
  `seek_backward` (`self.buf_pos - n` on `usize` and `self.absolute_pos -= n`
  on `u64`) can genuinely underflow on reachable inputs; they are modelled with
  overflow-checked (debug build) semantics, i.e. an underflow is a panic,
  reported as `RErr.panic`.  The additions in `consume` are modelled on `Nat`:
  wrap-around at `2 ^ 64` is unreachable for any source that fits in memory.
* Fallible operations return `Except RErr alpha` paired with the post state.
  Rust mutates `self` through `&mut` even when an operation returns `Err`
  via `try!`, so the error case also carries the (possibly mutated) state.
* The byte source (`R: Read + Seek`) is abstracted as a `SourceOps` type
  class with a raw read and a raw seek, mirroring the `Read`/`Seek` traits.
  `Cursor` models `std::io::Cursor` over a byte list and counts raw calls;
  `Flaky` is a test double whose raw operations fail once a budget is spent.
-/

/-- Rust `std::io::SeekFrom`. -/
inductive SeekFrom
  | start (n : Nat)
  | fromEnd (n : Int)
  | current (n : Int)
deriving DecidableEq

/-- Failure of a `BufReader` operation: a propagated I/O error, or a panic
from overflow-checked integer arithmetic. -/
inductive RErr
  | ioError
  | panic
deriving DecidableEq

instance {e a : Type} [DecidableEq e] [DecidableEq a] : DecidableEq (Except e a) := fun x y =>
  match x, y with
  | .ok u, .ok v =>
    if h : u = v then .isTrue (by rw [h]) else .isFalse (fun hh => by cases hh; exact h rfl)
  | .error u, .error v =>
    if h : u = v then .isTrue (by rw [h]) else .isFalse (fun hh => by cases hh; exact h rfl)
  | .ok _, .error _ => .isFalse (fun hh => by cases hh)
  | .error _, .ok _ => .isFalse (fun hh => by cases hh)

/-- The raw capabilities the reader requires from its source
(`R: Read + Seek`): a raw read of at most `max` bytes, and a raw seek. -/
class SourceOps (σ : Type) where
  readOp : σ → Nat → Except Unit (List Nat × σ)
  seekOp : σ → SeekFrom → Except Unit (Nat × σ)

/-- The `BufReader` state (src/lib.rs lines 70-76).  `buf` is the internal
buffer allocation, `buf_pos` the position within it, `cap` the field the
source calls `cap` (set by `fill_buf` to the byte count of the last raw
read), and `absolute_pos` the absolute position. -/
structure BufReader (σ : Type) where
  inner : σ
  buf : List Nat
  buf_pos : Nat
  cap : Nat
  absolute_pos : Nat
deriving DecidableEq

/-- `BufReader::with_capacity(cap, inner)`: allocates `vec![0; cap]` but
initialises the `cap` field to `0`. -/
def BufReader.with_capacity {σ : Type} (cap : Nat) (inner : σ) : BufReader σ :=
  { inner := inner, buf := List.replicate cap 0, buf_pos := 0, cap := 0, absolute_pos := 0 }

/-- `position()`: the absolute file pointer position. -/
def BufReader.position {σ : Type} (s : BufReader σ) : Nat := s.absolute_pos

/-- `capacity()`: returns the `cap` field. -/
def BufReader.capacity {σ : Type} (s : BufReader σ) : Nat := s.cap

/-- `available()`: `self.cap.checked_sub(self.buf_pos).unwrap_or(0)`, which is
exactly truncated subtraction on `Nat`. -/
def BufReader.available {σ : Type} (s : BufReader σ) : Nat := s.cap - s.buf_pos

/-- The slice `&self.buf[self.buf_pos..self.cap]` returned by `fill_buf`. -/
def BufReader.window {σ : Type} (s : BufReader σ) : List Nat :=
  (s.buf.drop s.buf_pos).take (s.cap - s.buf_pos)

/-- `into_inner()`: seeks the inner reader to `absolute_pos` and returns it;
on failure the reader (and its source) is consumed and dropped. -/
def BufReader.into_inner {σ : Type} [SourceOps σ] (s : BufReader σ) : Except RErr σ :=
  match SourceOps.seekOp s.inner (SeekFrom.start s.absolute_pos) with
  | .error _ => .error .ioError
  | .ok (_, inner1) => .ok inner1

/-- `sync_and_flush(pos)`: sets `buf_pos = cap` **before** the raw seek, then
updates `absolute_pos` from the source's reported position.  On a raw seek
failure the already-performed `buf_pos` mutation persists. -/
def BufReader.sync_and_flush {σ : Type} [SourceOps σ] (s : BufReader σ) (pos : SeekFrom) :
    Except RErr Nat × BufReader σ :=
  let s1 := { s with buf_pos := s.cap }
  match SourceOps.seekOp s1.inner pos with
  | .error _ => (.error .ioError, s1)
  | .ok (p, inner1) => (.ok p, { s1 with inner := inner1, absolute_pos := p })

/-- `consume(amt)` (from the `BufRead` impl): advances `buf_pos` by `amt` and
`absolute_pos` by `amt as u64`, in one step, unconditionally. -/
def BufReader.consume {σ : Type} (s : BufReader σ) (amt : Nat) : BufReader σ :=
  { s with buf_pos := s.buf_pos + amt, absolute_pos := s.absolute_pos + amt }

/-- `seek_backward(n)`: the source computes `self.buf_pos - n` (usize, panics
on underflow in a checked build) and, in the in-buffer branch,
`self.absolute_pos -= n` (u64, likewise checked). -/
def BufReader.seek_backward {σ : Type} [SourceOps σ] (s : BufReader σ) (n : Nat) :
    Except RErr Nat × BufReader σ :=
  if n ≤ s.buf_pos then
    if 0 < s.buf_pos - n then
      if n ≤ s.absolute_pos then
        (.ok (s.absolute_pos - n),
         { s with absolute_pos := s.absolute_pos - n, buf_pos := s.buf_pos - n })
      else (.error .panic, s)
    else s.sync_and_flush (SeekFrom.current (-(n : Int)))
  else (.error .panic, s)

/-- `seek_forward(n)`: `available().checked_sub(n).is_some()` is `n ≤ available`. -/
def BufReader.seek_forward {σ : Type} [SourceOps σ] (s : BufReader σ) (n : Nat) :
    Except RErr Nat × BufReader σ :=
  if n ≤ s.available then
    let s1 := s.consume n
    (.ok s1.absolute_pos, s1)
  else s.sync_and_flush (SeekFrom.current (n : Int))

/-- `fill_buf()`: refills only when `cap == buf_pos`, with a single raw read
into the whole allocation; returns `&buf[buf_pos..cap]`. -/
def BufReader.fill_buf {σ : Type} [SourceOps σ] (s : BufReader σ) :
    Except RErr (List Nat) × BufReader σ :=
  if s.cap = s.buf_pos then
    match SourceOps.readOp s.inner s.buf.length with
    | .error _ => (.error .ioError, s)
    | .ok (bs, inner1) =>
      let s1 : BufReader σ :=
        { s with inner := inner1, buf := bs ++ s.buf.drop bs.length,
                 cap := bs.length, buf_pos := 0 }
      (.ok s1.window, s1)
  else (.ok s.window, s)

/-- One-step-per-fill loop body of `read`, structurally recursive on a fuel
argument.  Each iteration that recurses consumes at least one byte of the
remaining request `k`, so with fuel `≥ k` the fuel never runs out before the
loop exits; fuel exhaustion therefore coincides with `k = 0` and returns the
same result the loop would. -/
def BufReader.readAux {σ : Type} [SourceOps σ] :
    Nat → BufReader σ → Nat → Except RErr (List Nat) × BufReader σ
  | 0, s, _ => (.ok [], s)
  | fuel + 1, s, k =>
    if k = 0 then (.ok [], s)
    else
      match s.fill_buf with
      | (.error e, s1) => (.error e, s1)
      | (.ok sl, s1) =>
        if min sl.length k = 0 then (.ok [], s1)
        else
          match BufReader.readAux fuel (s1.consume (min sl.length k)) (k - min sl.length k) with
          | (.error e, s2) => (.error e, s2)
          | (.ok rest, s2) => (.ok (sl.take (min sl.length k) ++ rest), s2)

/-- `read(buf)` with a destination of length `k`: fills, copies, consumes
until `k` bytes are delivered or a fill yields nothing.  Returns the bytes
delivered (Rust returns their count and writes them into `buf`). -/
def BufReader.read {σ : Type} [SourceOps σ] (s : BufReader σ) (k : Nat) :
    Except RErr (List Nat) × BufReader σ :=
  BufReader.readAux k s k

/-- `Seek::seek`: positive `Current` offsets go forward, all others (including
zero) go through `seek_backward(n.abs())`; `Start`/`End` always flush. -/
def BufReader.seek {σ : Type} [SourceOps σ] (s : BufReader σ) (pos : SeekFrom) :
    Except RErr Nat × BufReader σ :=
  match pos with
  | .current n => if 0 < n then s.seek_forward n.toNat else s.seek_backward n.natAbs
  | .start _ => s.sync_and_flush pos
  | .fromEnd _ => s.sync_and_flush pos

/-- A sequence of `read` calls with the given destination sizes, collecting
the bytes delivered by each call. -/
def BufReader.runReads {σ : Type} [SourceOps σ] :
    BufReader σ → List Nat → Except RErr (List (List Nat)) × BufReader σ
  | s, [] => (.ok [], s)
  | s, k :: ks =>
    match s.read k with
    | (.error e, s1) => (.error e, s1)
    | (.ok bs, s1) =>
      match s1.runReads ks with
      | (.error e, s2) => (.error e, s2)
      | (.ok rest, s2) => (.ok (bs :: rest), s2)

/-- A model of `std::io::Cursor` over a byte list, instrumented with counters
for the number of raw read and raw seek calls. -/
structure Cursor where
  data : List Nat
  pos : Nat
  reads : Nat
  seeks : Nat
deriving DecidableEq

/-- A raw cursor read of at most `max` bytes: delivers
`min max (data.length - pos)` bytes starting at `pos`. -/
def Cursor.readRaw (c : Cursor) (max : Nat) : List Nat × Cursor :=
  let bs := (c.data.drop c.pos).take max
  (bs, { c with pos := c.pos + bs.length, reads := c.reads + 1 })

/-- A raw cursor seek: `Start` always succeeds; `End`/`Current` fail on a
negative resulting position (as `std::io::Cursor` does), without moving. -/
def Cursor.seekRaw (c : Cursor) (pos : SeekFrom) : Except Unit (Nat × Cursor) :=
  match pos with
  | .start n => .ok (n, { c with pos := n, seeks := c.seeks + 1 })
  | .fromEnd k =>
    let t : Int := (c.data.length : Int) + k
    if t < 0 then .error () else .ok (t.toNat, { c with pos := t.toNat, seeks := c.seeks + 1 })
  | .current k =>
    let t : Int := (c.pos : Int) + k
    if t < 0 then .error () else .ok (t.toNat, { c with pos := t.toNat, seeks := c.seeks + 1 })

instance : SourceOps Cursor where
  readOp c max := .ok (c.readRaw max)
  seekOp := Cursor.seekRaw

/-- A sequence of raw reads performed directly on a cursor, bypassing the
buffered reader. -/
def Cursor.runDirect : Cursor → List Nat → List (List Nat) × Cursor
  | c, [] => ([], c)
  | c, k :: ks =>
    let r := c.readRaw k
    let rest := r.2.runDirect ks
    (r.1 :: rest.1, rest.2)

/-- A test-double source: behaves like `Cursor` while `budget` raw operations
remain, then fails every raw operation (leaving itself unchanged). -/
structure Flaky where
  cur : Cursor
  budget : Nat
deriving DecidableEq

instance : SourceOps Flaky where
  readOp f max :=
    if f.budget = 0 then .error ()
    else
      let r := f.cur.readRaw max
      .ok (r.1, ⟨r.2, f.budget - 1⟩)
  seekOp f pos :=
    if f.budget = 0 then .error ()
    else
      match f.cur.seekRaw pos with
      | .error e => .error e
      | .ok (p, c1) => .ok (p, ⟨c1, f.budget - 1⟩)

/-- Reachability invariant of a cursor-backed reader over source bytes `data`:
the counters are in range, the source's physical position leads the logical
position by exactly the unconsumed byte count, and the unconsumed window holds
exactly the source bytes starting at the logical position. -/
def BufReader.WF (data : List Nat) (s : BufReader Cursor) : Prop :=
  s.buf_pos ≤ s.cap ∧ s.cap ≤ s.buf.length ∧ s.inner.data = data ∧
  s.inner.pos = s.absolute_pos + (s.cap - s.buf_pos) ∧
  s.window = (data.drop s.absolute_pos).take (s.cap - s.buf_pos) ∧
  s.absolute_pos + (s.cap - s.buf_pos) ≤ data.length

theorem take_min_self {α : Type} (l : List α) (k : Nat) : l.take (min k l.length) = l.take k := by
  conv_rhs => rw [← List.take_length l, List.take_take]

theorem consume_WF (data : List Nat) (s : BufReader Cursor) (n : Nat)
    (h : BufReader.WF data s) (hn : n ≤ s.cap - s.buf_pos) :
    BufReader.WF data (s.consume n) := by
  obtain ⟨h1, h2, h3, h4, h5, h6⟩ := h
  have hw := congrArg (List.drop n) h5
  simp only [BufReader.window, List.drop_take, List.drop_drop] at hw
  refine ⟨by simp [BufReader.consume]; omega, h2, h3, ?_, ?_, ?_⟩
  · simp only [BufReader.consume]; omega
  · simp only [BufReader.window, BufReader.consume]
    have hsub : s.cap - (s.buf_pos + n) = s.cap - s.buf_pos - n := by omega
    rw [hsub]
    exact hw
  · simp only [BufReader.consume]; omega

theorem fill_spec (data : List Nat) (s : BufReader Cursor) (h : BufReader.WF data s) :
    ∃ s1, s.fill_buf = (.ok s1.window, s1) ∧ BufReader.WF data s1 ∧
      s1.absolute_pos = s.absolute_pos ∧ s1.buf.length = s.buf.length ∧
      s1.inner.seeks = s.inner.seeks ∧
      s1.window = (data.drop s.absolute_pos).take (s1.cap - s1.buf_pos) ∧
      (1 ≤ s.buf.length → s.absolute_pos < data.length → 0 < s1.cap - s1.buf_pos) := by
  obtain ⟨h1, h2, h3, h4, h5, h6⟩ := h
  by_cases hc : s.cap = s.buf_pos
  · have hpos : s.inner.pos = s.absolute_pos := by omega
    set bs : List Nat := (data.drop s.absolute_pos).take s.buf.length with hbs
    have hbsl : bs.length = min s.buf.length (data.length - s.absolute_pos) := by
      simp [hbs, List.length_take, List.length_drop]
    have hble : bs.length ≤ s.buf.length := by omega
    set c1 : Cursor := ⟨s.inner.data, s.inner.pos + bs.length, s.inner.reads + 1, s.inner.seeks⟩
      with hc1
    set s1 : BufReader Cursor :=
      ⟨c1, bs ++ s.buf.drop bs.length, 0, bs.length, s.absolute_pos⟩ with hs1
    have hwin : s1.window = bs := by
      simp only [hs1, BufReader.window, Nat.sub_zero, List.drop_zero]
      exact List.take_left bs (s.buf.drop bs.length)
    have hwin2 : s1.window = (data.drop s.absolute_pos).take (s1.cap - s1.buf_pos) := by
      rw [hwin, hs1]
      simp only [Nat.sub_zero]
      rw [hbsl]
      have htm := take_min_self (data.drop s.absolute_pos) s.buf.length
      simp only [List.length_drop] at htm
      rw [htm]
    have hlen : s1.buf.length = s.buf.length := by
      simp [hs1, List.length_drop]; omega
    refine ⟨s1, ?_, ?_, rfl, hlen, rfl, hwin2, ?_⟩
    · simp only [BufReader.fill_buf, hc, if_pos rfl]
      simp [instSourceOpsCursor, Cursor.readRaw, h3, hpos, hbs, hs1, hc1]
    · refine ⟨Nat.zero_le _, ?_, h3, ?_, hwin2, ?_⟩
      · rw [hlen]; exact hble
      · simp [hs1, hc1, hpos]
      · simp [hs1]; omega
    · intro hb hlt; simp [hs1]; omega
  · refine ⟨s, ?_, ⟨h1, h2, h3, h4, h5, h6⟩, rfl, rfl, rfl, h5, ?_⟩
    · simp [BufReader.fill_buf, hc]
    · intro _ _; omega

theorem readAux_spec (data : List Nat) :
    ∀ fuel k (s : BufReader Cursor), k ≤ fuel → BufReader.WF data s → 1 ≤ s.buf.length →
    ∃ s2, BufReader.readAux fuel s k =
        (.ok ((data.drop s.absolute_pos).take (min k (data.length - s.absolute_pos))), s2) ∧
      BufReader.WF data s2 ∧
      s2.absolute_pos = s.absolute_pos + min k (data.length - s.absolute_pos) ∧
      s2.buf.length = s.buf.length ∧ s2.inner.seeks = s.inner.seeks := by
  intro fuel
  induction fuel with
  | zero =>
    intro k s hk hWF hbuf
    have hk0 : k = 0 := Nat.le_zero.mp hk
    subst hk0
    exact ⟨s, by simp [BufReader.readAux], hWF, by simp, rfl, rfl⟩
  | succ fuel IH =>
    intro k s hk hWF hbuf
    by_cases hk0 : k = 0
    · subst hk0
      exact ⟨s, by simp [BufReader.readAux], hWF, by simp, rfl, rfl⟩
    · obtain ⟨s1, hfill, hWF1, habs1, hlen1, hseeks1, hwin1, hposi⟩ := fill_spec data s hWF
      obtain ⟨g1, g2, g3, g4, g5, g6⟩ := hWF1
      have hwl : s1.window.length = s1.cap - s1.buf_pos := by
        rw [hwin1]
        simp only [List.length_take, List.length_drop]
        omega
      by_cases ha : s1.cap - s1.buf_pos = 0
      · have hmin0 : min s1.window.length k = 0 := by rw [hwl, ha]; simp
        have hlen0 : data.length - s.absolute_pos = 0 := by
          by_contra hne
          have h1lt : s.absolute_pos < data.length := by omega
          have := hposi hbuf h1lt
          omega
        have heq : BufReader.readAux (fuel + 1) s k = (.ok [], s1) := by
          simp only [BufReader.readAux, if_neg hk0, hfill]
          simp [hmin0]
        refine ⟨s1, ?_, ⟨g1, g2, g3, g4, g5, g6⟩, ?_, hlen1, hseeks1⟩
        · rw [heq, hlen0]
          simp
        · rw [hlen0]
          simp [habs1]
      · have hnpos : 0 < min s1.window.length k := by rw [hwl]; omega
        have hmne : ¬min s1.window.length k = 0 := by omega
        have hnle : min s1.window.length k ≤ s1.cap - s1.buf_pos := by rw [hwl]; omega
        have hWFc := consume_WF data s1 (min s1.window.length k) ⟨g1, g2, g3, g4, g5, g6⟩ hnle
        have habsc : (s1.consume (min s1.window.length k)).absolute_pos =
            s.absolute_pos + min s1.window.length k := by
          simp [BufReader.consume, habs1]
        have hlenc : (s1.consume (min s1.window.length k)).buf.length = s.buf.length := by
          simp [BufReader.consume, hlen1]
        obtain ⟨s3, hrec, hWF3, habs3, hlen3, hseeks3⟩ :=
          IH (k - min s1.window.length k) (s1.consume (min s1.window.length k)) (by omega) hWFc
            (by rw [hlenc]; exact hbuf)
        rw [habsc] at hrec habs3
        have hale : s1.cap - s1.buf_pos ≤ data.length - s.absolute_pos := by omega
        have heq : BufReader.readAux (fuel + 1) s k =
            (.ok (s1.window.take (min s1.window.length k) ++
              (data.drop (s.absolute_pos + min s1.window.length k)).take
                (min (k - min s1.window.length k)
                  (data.length - (s.absolute_pos + min s1.window.length k)))), s3) := by
          simp only [BufReader.readAux, if_neg hk0, hfill]
          simp only [hrec, if_neg hmne]
        refine ⟨s3, ?_, hWF3, ?_, ?_, ?_⟩
        · rw [heq]
          have hbytes : s1.window.take (min s1.window.length k) ++
              (data.drop (s.absolute_pos + min s1.window.length k)).take
                (min (k - min s1.window.length k)
                  (data.length - (s.absolute_pos + min s1.window.length k))) =
              (data.drop s.absolute_pos).take (min k (data.length - s.absolute_pos)) := by
            rw [hwl, hwin1, List.take_take]
            rw [show min (min (s1.cap - s1.buf_pos) k) (s1.cap - s1.buf_pos) =
                min (s1.cap - s1.buf_pos) k by omega]
            rw [← List.drop_drop]
            rw [← List.take_add]
            rw [show min (s1.cap - s1.buf_pos) k +
                min (k - min (s1.cap - s1.buf_pos) k)
                  (data.length - (s.absolute_pos + min (s1.cap - s1.buf_pos) k)) =
                min k (data.length - s.absolute_pos) by omega]
          rw [hbytes]
        · rw [habs3]
          rw [hwl]
          omega
        · rw [hlen3, hlenc]
        · rw [hseeks3]
          simp [BufReader.consume, hseeks1]

theorem WF_with_capacity (data : List Nat) (c : Nat) :
    BufReader.WF data (BufReader.with_capacity c (Cursor.mk data 0 0 0)) := by
  refine ⟨Nat.le_refl 0, Nat.zero_le _, rfl, rfl, ?_, Nat.zero_le _⟩
  simp [BufReader.window, BufReader.with_capacity]

theorem runReads_agree (data : List Nat) :
    ∀ (ks : List Nat) (s : BufReader Cursor) (c : Cursor), BufReader.WF data s →
      1 ≤ s.buf.length → c.data = data → c.pos = s.absolute_pos →
      (s.runReads ks).1 = .ok (Cursor.runDirect c ks).1 := by
  intro ks
  induction ks with
  | nil =>
    intro s c _ _ _ _
    simp [BufReader.runReads, Cursor.runDirect]
  | cons k ks IH =>
    intro s c hWF hbuf hcd hcp
    obtain ⟨s2, hread, hWF2, habs2, hlen2, hseeks2⟩ := readAux_spec data k k s (Nat.le_refl k) hWF hbuf
    have hbytes : (data.drop s.absolute_pos).take (min k (data.length - s.absolute_pos)) =
        (data.drop s.absolute_pos).take k := by
      have h := take_min_self (data.drop s.absolute_pos) k
      simpa only [List.length_drop] using h
    have hc2data : (c.readRaw k).2.data = data := by
      simp [Cursor.readRaw, hcd]
    have hc2pos : (c.readRaw k).2.pos = s2.absolute_pos := by
      simp [Cursor.readRaw, hcd, hcp, habs2, List.length_take, List.length_drop]
    have key := IH s2 ((c.readRaw k).2) hWF2 (by rw [hlen2]; exact hbuf) hc2data hc2pos
    have hfirst : (c.readRaw k).1 = (data.drop s.absolute_pos).take k := by
      simp [Cursor.readRaw, hcd, hcp]
    simp only [BufReader.runReads, BufReader.read, hread]
    rcases hsr : s2.runReads ks with ⟨e1, s4⟩
    rw [hsr] at key
    rcases e1 with e | rest
    · simp at key
    · have hrest : rest = ((c.readRaw k).2.runDirect ks).1 := by
        injection key
      simp [Cursor.runDirect, hbytes, hfirst, hrest]

instance (data : List Nat) (s : BufReader Cursor) : Decidable (BufReader.WF data s) := by
  unfold BufReader.WF
  infer_instance

/-- Reader over `[0..8)` with capacity 2 after reading one byte: the logical
position is 1 while the cursor is physically at 2 (one unconsumed byte). -/
def sC1 : BufReader Cursor :=
  ((BufReader.with_capacity 2 (Cursor.mk [0, 1, 2, 3, 4, 5, 6, 7] 0 0 0)).read 1).2

/-- C1: a current-relative seek that escapes the buffered window while the
buffer holds unconsumed bytes does not land on `absolute_pos + n`.  From
`absolute_pos = 1` with `available = 1`, `seek(Current(5))` flushes with a raw
`Current(5)` seek against the source's physical position 2 and ends at 7, not
at `1 + 5 = 6`. -/
theorem seek_current_flush_wrong_position :
    sC1.absolute_pos = 1 ∧ 1 ≤ sC1.available ∧
    (sC1.seek (SeekFrom.current 5)).1 = .ok 7 ∧
    (sC1.seek (SeekFrom.current 5)).2.absolute_pos = 7 ∧ (7 : Nat) ≠ 1 + 5 := by decide

/-- The 17-byte source `[0..17)` used by the spec's concrete scenarios. -/
def data17 : List Nat := [0, 1, 2, 3, 4, 5, 6, 7, 8, 9, 10, 11, 12, 13, 14, 15, 16]

/-- Scenario B state: capacity 2 over `[0..17)`, after `seek(Current(4))` and
an 8-byte read; `buf_pos = 2`, `absolute_pos = 12`, one raw seek so far. -/
def sB2 : BufReader Cursor :=
  ((((BufReader.with_capacity 2 (Cursor.mk data17 0 0 0)).seek
      (SeekFrom.current 4)).2).read 8).2

/-- C2: at backward magnitude `m = buffer_pos` (here `2 = 2`) the code takes
the flush path: `seek(Current(-2))` does reach position 10 but issues one raw
source seek, because the in-buffer condition is the strict `buf_pos - n > 0`
rather than `n <= buf_pos`. -/
theorem seek_backward_boundary_issues_source_seek :
    sB2.buf_pos = 2 ∧ sB2.absolute_pos = 12 ∧
    (sB2.seek (SeekFrom.current (-2))).1 = .ok 10 ∧
    (sB2.seek (SeekFrom.current (-2))).2.inner.seeks = sB2.inner.seeks + 1 := by decide

/-- C3: `capacity()` does not report the constructed capacity: the `cap`
field starts at 0 and is overwritten by each fill with the byte count the
source returned, so a capacity-2 reader over a 1-byte source reports
capacity 0 at construction and 1 after a read. -/
theorem capacity_not_fixed :
    (BufReader.with_capacity 2 (Cursor.mk [0] 0 0 0)).capacity = 0 ∧
    ((BufReader.with_capacity 2 (Cursor.mk [0] 0 0 0)).read 1).2.capacity = 1 ∧
    (0 : Nat) ≠ 2 ∧ (1 : Nat) ≠ 2 := by decide

/-- Freshly filled reader over `[0..17)` with capacity 2: `buf_pos = 0`,
`cap = 2`, `absolute_pos = 0`, cursor physically at 2. -/
def sD : BufReader Cursor :=
  ((BufReader.with_capacity 2 (Cursor.mk data17 0 0 0)).fill_buf).2

/-- C4: with `buf_pos = 0`, `seek(Current(0))` is routed to
`seek_backward(0)` whose `buf_pos - 0 > 0` test fails, so it flushes: it
issues a raw source seek and returns the source's physical position 2 instead
of the unchanged `absolute_pos = 0`, also resetting `buf_pos` to `cap`. -/
theorem seek_current_zero_not_noop :
    sD.buf_pos = 0 ∧ sD.absolute_pos = 0 ∧
    (sD.seek (SeekFrom.current 0)).1 = .ok 2 ∧
    (sD.seek (SeekFrom.current 0)).2.absolute_pos = 2 ∧
    (sD.seek (SeekFrom.current 0)).2.buf_pos = 2 ∧
    (sD.seek (SeekFrom.current 0)).2.inner.seeks = sD.inner.seeks + 1 := by decide

/-- Freshly filled capacity-2 reader over a flaky source whose raw-operation
budget is spent: the next raw read or seek fails. -/
def sF : BufReader Flaky :=
  ((BufReader.with_capacity 2 (Flaky.mk (Cursor.mk [0, 1, 2, 3] 0 0 0) 1)).fill_buf).2

/-- C5: a failing raw seek does not leave the counters untouched:
`sync_and_flush` assigns `buf_pos = cap` before calling the source, so the
failed `seek(Start(0))` returns an error with `buf_pos` mutated from 0 to 2
(discarding the buffered bytes). -/
theorem failed_seek_mutates_buf_pos :
    sF.buf_pos = 0 ∧ sF.cap = 2 ∧
    (sF.seek (SeekFrom.start 0)).1 = .error .ioError ∧
    (sF.seek (SeekFrom.start 0)).2.buf_pos = 2 := by decide

/-- C6: on a fresh reader (`buf_pos = 0`), `seek(Current(-1))` evaluates
`buf_pos - 1` on usize, which underflows: a panic under overflow-checked
semantics, not a flush. -/
theorem seek_backward_underflow_panics :
    ((BufReader.with_capacity 2 (Cursor.mk [0, 1, 2, 3] 0 0 0)).seek
      (SeekFrom.current (-1))).1 = .error .panic := by decide

/-- C7 counterexample: with buffer capacity 0 every fill reads 0 bytes, so
the buffered reader delivers no bytes where direct source reads deliver the
data; the round-trip equality fails at capacity 0. -/
theorem read_refinement_fails_at_zero_capacity :
    ((BufReader.with_capacity 0 (Cursor.mk [7] 0 0 0)).runReads [1]).1 = .ok [[]] ∧
    ((Cursor.mk [7] 0 0 0).runDirect [1]).1 = [[7]] ∧
    ((BufReader.with_capacity 0 (Cursor.mk [7] 0 0 0)).runReads [1]).1 ≠
      .ok ((Cursor.mk [7] 0 0 0).runDirect [1]).1 := by decide

/-- C7 (amended to positive capacities): for every source content, every
capacity `c ≥ 1` and every sequence of read calls with no intervening seeks,
the buffered reader delivers exactly the bytes, in the same order and
grouping, that the same read calls deliver directly on the source. -/
theorem read_refines_direct (data : List Nat) (c : Nat) (ks : List Nat) (hc : 1 ≤ c) :
    ((BufReader.with_capacity c (Cursor.mk data 0 0 0)).runReads ks).1 =
      .ok ((Cursor.mk data 0 0 0).runDirect ks).1 :=
  runReads_agree data ks (BufReader.with_capacity c (Cursor.mk data 0 0 0))
    (Cursor.mk data 0 0 0) (WF_with_capacity data c)
    (by simpa [BufReader.with_capacity] using hc) rfl rfl

theorem read_refines_direct_witness :
    1 ≤ 2 ∧
    (((BufReader.with_capacity 2 (Cursor.mk [9, 8, 7] 0 0 0)).runReads [2, 2]).1 =
      .ok ((Cursor.mk [9, 8, 7] 0 0 0).runDirect [2, 2]).1) :=
  ⟨by decide, read_refines_direct [9, 8, 7] 2 [2, 2] (by decide)⟩

/-- C8: `consume(amt)` adds `amt` to `buf_pos` and to `absolute_pos` in one
step with no clamping and touches nothing else; the in-buffer seeks are the
same lockstep update: an in-window forward seek *is* `consume n`, and the
in-buffer backward branch subtracts `m` from both counters together. -/
theorem consume_advances_counters_together {σ : Type} [SourceOps σ] (s : BufReader σ)
    (amt n m : Nat) (hamt : amt ≤ s.available) (hn : n ≤ s.available)
    (hm1 : 0 < s.buf_pos - m) (hm2 : m ≤ s.absolute_pos) :
    (s.consume amt).buf_pos = s.buf_pos + amt ∧
    (s.consume amt).absolute_pos = s.absolute_pos + amt ∧
    (s.consume amt).inner = s.inner ∧ (s.consume amt).cap = s.cap ∧
    (s.consume amt).buf = s.buf ∧
    s.seek_forward n = (.ok (s.absolute_pos + n), s.consume n) ∧
    s.seek_backward m = (.ok (s.absolute_pos - m),
      { s with buf_pos := s.buf_pos - m, absolute_pos := s.absolute_pos - m }) := by
  refine ⟨rfl, rfl, rfl, rfl, rfl, ?_, ?_⟩
  · simp [BufReader.seek_forward, BufReader.consume, hn]
  · have hmle : m ≤ s.buf_pos := by omega
    simp [BufReader.seek_backward, hmle, hm1, hm2]

/-- A cursor-backed reader state with `buf_pos = 2`, `cap = 4`,
`absolute_pos = 4`, hence `available = 2`. -/
def sW : BufReader Cursor :=
  BufReader.mk (Cursor.mk [0, 1, 2, 3, 4, 5] 6 0 0) [2, 3, 4, 5] 2 4 4

theorem consume_advances_counters_together_witness :
    (1 ≤ sW.available ∧ 0 < sW.buf_pos - 1 ∧ 1 ≤ sW.absolute_pos) ∧
    ((sW.consume 1).buf_pos = sW.buf_pos + 1 ∧
      (sW.consume 1).absolute_pos = sW.absolute_pos + 1 ∧
      (sW.consume 1).inner = sW.inner ∧ (sW.consume 1).cap = sW.cap ∧
      (sW.consume 1).buf = sW.buf ∧
      sW.seek_forward 1 = (.ok (sW.absolute_pos + 1), sW.consume 1) ∧
      sW.seek_backward 1 = (.ok (sW.absolute_pos - 1),
        { sW with buf_pos := sW.buf_pos - 1, absolute_pos := sW.absolute_pos - 1 })) :=
  ⟨⟨by decide, by decide, by decide⟩,
    consume_advances_counters_together sW 1 1 1 (by decide) (by decide) (by decide) (by decide)⟩

/-- C9: `fill_buf` issues a raw source read exactly when the unconsumed
region is empty (`cap = buf_pos`) and then exactly one; it sets `cap` to the
byte count the source returned and resets `buf_pos` to 0; otherwise it
changes nothing; in both cases it returns the window
`buf[buf_pos..cap]` of the resulting state and issues no raw seek. -/
theorem fill_buf_single_read (s : BufReader Cursor) :
    (s.fill_buf).2.inner.reads = s.inner.reads + (if s.cap = s.buf_pos then 1 else 0) ∧
    (s.fill_buf).1 = .ok (s.fill_buf).2.window ∧
    (s.fill_buf).2.buf_pos = (if s.cap = s.buf_pos then 0 else s.buf_pos) ∧
    (s.fill_buf).2.cap =
      (if s.cap = s.buf_pos then ((s.inner.data.drop s.inner.pos).take s.buf.length).length
       else s.cap) ∧
    (s.fill_buf).2.inner.seeks = s.inner.seeks ∧
    (s.fill_buf).2.absolute_pos = s.absolute_pos := by
  by_cases hc : s.cap = s.buf_pos <;>
    simp [BufReader.fill_buf, hc, instSourceOpsCursor, Cursor.readRaw]

/-- C10: `into_inner` performs exactly one raw seek (an absolute one, to
`absolute_pos`) and hands back the source positioned at `position()`;
reading any `k` bytes from the returned source yields exactly the bytes the
reader itself would have delivered next. -/
theorem into_inner_syncs_source (data : List Nat) (s : BufReader Cursor)
    (h : BufReader.WF data s) (hbuf : 1 ≤ s.buf.length) :
    ∃ c1, s.into_inner = .ok c1 ∧ c1.pos = s.position ∧
      c1.seeks = s.inner.seeks + 1 ∧ c1.reads = s.inner.reads ∧ c1.data = data ∧
      ∀ k, (s.read k).1 = .ok (c1.readRaw k).1 := by
  refine ⟨Cursor.mk s.inner.data s.absolute_pos s.inner.reads (s.inner.seeks + 1),
    ?_, rfl, rfl, rfl, h.2.2.1, ?_⟩
  · simp [BufReader.into_inner, instSourceOpsCursor, Cursor.seekRaw]
  · intro k
    obtain ⟨s2, hread, _, _, _, _⟩ := readAux_spec data k k s (Nat.le_refl k) h hbuf
    have hbytes := take_min_self (data.drop s.absolute_pos) k
    simp only [List.length_drop] at hbytes
    simp [BufReader.read, hread, Cursor.readRaw, h.2.2.1, hbytes]

/-- Capacity-2 reader over `[0,1,2,3]` after reading one byte; a concrete
well-formed state with a nonempty buffered window. -/
def sC10 : BufReader Cursor :=
  ((BufReader.with_capacity 2 (Cursor.mk [0, 1, 2, 3] 0 0 0)).read 1).2

theorem into_inner_syncs_source_witness :
    (BufReader.WF [0, 1, 2, 3] sC10 ∧ 1 ≤ sC10.buf.length) ∧
    (∃ c1, sC10.into_inner = .ok c1 ∧ c1.pos = sC10.position ∧
      c1.seeks = sC10.inner.seeks + 1 ∧ c1.reads = sC10.inner.reads ∧
      c1.data = [0, 1, 2, 3] ∧ ∀ k, (sC10.read k).1 = .ok (c1.readRaw k).1) :=
  ⟨⟨by decide, by decide⟩,
    into_inner_syncs_source [0, 1, 2, 3] sC10 (by decide) (by decide)⟩
